import Mathlib

/-!
Verification of the dragit networking core (src/p2p) against its
natural-language specification.  Each Rust module that the claims touch is
shallowly embedded below; stateful code is modelled by explicit state passing
and by action traces, fallible code by `Except`/`Option`.
-/

namespace Dragit

/-! ## Data model (src/p2p/peer.rs) -/

/-- Opaque peer identifier (libp2p `PeerId`); equality is by the identifier. -/
structure PeerId where
  id : Nat
deriving DecidableEq, Repr

/-- Network address (libp2p `Multiaddr`), opaque for the embedding. -/
structure Multiaddr where
  addr : String
deriving DecidableEq, Repr

/-- The `OperatingSystem` enum of src/p2p/peer.rs. -/
inductive OperatingSystem
  | Linux
  | Windows
  | Macos
  | Other
  | Unknown
deriving DecidableEq, Repr

/-- The `Peer` struct of src/p2p/peer.rs. -/
structure Peer where
  name : String
  address : Multiaddr
  peer_id : PeerId
  hostname : String
  os : OperatingSystem
deriving DecidableEq, Repr

/-- The `impl PartialEq for Peer` of src/p2p/peer.rs: it compares only the
`peer_id` fields. -/
def Peer.eq (p q : Peer) : Bool :=
  p.peer_id == q.peer_id

/-- The `Direction` enum of src/p2p/peer.rs. -/
inductive Direction
  | Incoming
  | Outgoing
deriving DecidableEq, Repr

/-- The `PeerEvent` enum of src/p2p/peer.rs (events flowing to the UI). -/
inductive PeerEvent
  | PeersUpdated (peers : List Peer)
  | TransferProgress (done total : Nat) (dir : Direction)
  | TransferCompleted
  | TransferError
  | FileCorrect (name path : String)
  | FileIncorrect
  | FileIncoming (name hash : String) (size : Nat)
  | ErrorEvent (msg : String)
deriving DecidableEq, Repr

/-! ## Discovery behaviour (src/p2p/discovery/behaviour.rs) -/

namespace Discovery

/-- The peer table `peers: HashMap<PeerId, Peer>` of `DiscoveryBehaviour`,
embedded as an association list. -/
abbrev PeerTable := List (PeerId × Peer)

/-- Lookup in the peer table (`self.peers.get(&peer_id)`). -/
def lookupPeer (peers : PeerTable) (pid : PeerId) : Option Peer :=
  (peers.find? (fun kv => kv.1 == pid)).map (fun kv => kv.2)

/-- The `DiscoveryBehaviour::update_peer` of src/p2p/discovery/behaviour.rs
(lines 135-143): `self.peers.get_mut(&peer_id)` and, when present, assignment
of `peer.hostname` and `peer.os` only. -/
def update_peer (peers : PeerTable) (peer_id : PeerId) (hostname : String)
    (os : OperatingSystem) : PeerTable :=
  peers.map (fun kv =>
    if kv.1 == peer_id then
      (kv.1, { kv.2 with hostname := hostname, os := os })
    else kv)

/-- Key-preservation of `update_peer`: a lookup for any key after the update
finds the same entry as before, with the hostname/os rewrite applied when the
entry is the updated one. -/
theorem update_peer_find (peers : PeerTable) (pid : PeerId) (h : String)
    (o : OperatingSystem) (q : PeerId) :
    (update_peer peers pid h o).find? (fun kv => kv.1 == q)
      = (peers.find? (fun kv => kv.1 == q)).map
          (fun kv =>
            if kv.1 == pid then (kv.1, { kv.2 with hostname := h, os := o })
            else kv) := by
  induction peers with
  | nil => rfl
  | cons kv rest ih =>
    obtain ⟨k, v⟩ := kv
    by_cases hq : k = q
    · subst hq
      by_cases hp : k = pid
      · subst hp
        simp [update_peer, List.find?]
      · have hkp : (k == pid) = false := by simp [hp]
        simp [update_peer, List.find?, hp, hkp]
    · have hkq : (k == q) = false := by simp [hq]
      by_cases hp : k = pid
      · subst hp
        simpa [update_peer, List.find?, hkq] using ih
      · have hkp : (k == pid) = false := by simp [hp]
        simpa [update_peer, List.find?, hkq, hkp] using ih

/-- Lookup of the updated key itself after `update_peer`: the found entry is
the old one with hostname and os replaced. -/
theorem update_peer_find_self (peers : PeerTable) (pid : PeerId) (h : String)
    (o : OperatingSystem) :
    (update_peer peers pid h o).find? (fun kv => kv.1 == pid)
      = (peers.find? (fun kv => kv.1 == pid)).map
          (fun kv => (kv.1, { kv.2 with hostname := h, os := o })) := by
  induction peers with
  | nil => rfl
  | cons kv rest ih =>
    obtain ⟨k, v⟩ := kv
    by_cases hp : k = pid
    · subst hp
      simp [update_peer, List.find?]
    · have hkp : (k == pid) = false := by simp [hp]
      simpa [update_peer, List.find?, hkp] using ih

end Discovery

/-! ## Transfer behaviour (src/p2p/behaviour.rs and src/p2p/protocol.rs) -/

namespace Behaviour

/-- The `FileToSend` struct of src/p2p/protocol.rs: the `peer` field is the
target peer chosen by the user (the target_peer_id of the spec). -/
structure FileToSend where
  name : String
  path : String
  peer : PeerId
deriving DecidableEq, Repr

/-- The `TransferOut` struct of src/p2p/protocol.rs (legacy `/transfer/1.0`):
only name and path travel with the outbound upgrade. -/
structure TransferOutRec where
  name : String
  path : String
deriving DecidableEq, Repr

/-- The payload data of the `TransferPayload` struct of src/p2p/protocol.rs
(the sender_queue channel half is not part of the value model). -/
structure TransferPayloadRec where
  name : String
  path : String
  hash : String
  size_bytes : Nat
deriving DecidableEq, Repr

/-- The state of `TransferBehaviour` (src/p2p/behaviour.rs lines 16-21):
`peers` and `connected_peers` are HashSets, embedded as lists in iteration
order; `events` holds the queued `NotifyHandler` actions, which in this code
always carry a received `TransferPayload`; `payloads` is the `Vec<FileToSend>`
written by `push_file` and drained by `poll`. -/
structure TransferBehaviour where
  peers : List PeerId
  connected_peers : List PeerId
  events : List TransferPayloadRec
  payloads : List FileToSend
deriving DecidableEq, Repr

/-- The `TransferBehaviour::push_file` of src/p2p/behaviour.rs (lines 33-35):
`self.payloads.push(file)` appends at the back of the vector. -/
def TransferBehaviour.push_file (b : TransferBehaviour) (file : FileToSend) :
    TransferBehaviour :=
  { b with payloads := b.payloads ++ [file] }

/-- The action returned by one `TransferBehaviour::poll` wake-up. -/
inductive PollAction
  | GenerateEvent (tp : TransferPayloadRec)
  | NotifyHandler (peer_id : PeerId) (event : TransferOutRec)
  | DialPeer (peer_id : PeerId)
  | Pending
deriving DecidableEq, Repr

/-- The `TransferBehaviour::poll` of src/p2p/behaviour.rs (lines 86-151).
`self.events.pop()` and `self.payloads.pop()` remove from the BACK of the
vector; `self.connected_peers.iter().nth(0)` takes the first element of the
set iteration; the payload popped is paired with that peer, and the
`peer` field of the popped `FileToSend` is never consulted. -/
def TransferBehaviour.poll (b : TransferBehaviour) :
    PollAction × TransferBehaviour :=
  match b.events.getLast? with
  | some tp => (.GenerateEvent tp, { b with events := b.events.dropLast })
  | none =>
    match b.connected_peers with
    | peer :: _ =>
      match b.payloads.getLast? with
      | some message =>
        (.NotifyHandler peer ⟨message.name, message.path⟩,
         { b with payloads := b.payloads.dropLast })
      | none => (.Pending, b)
    | [] =>
      match b.peers.find? (fun p => !(b.connected_peers.contains p)) with
      | some p => (.DialPeer p, b)
      | none => (.Pending, b)

end Behaviour

/-! ## Transfer protocol 1.1 (src/p2p/transfer/protocol.rs) -/

namespace Transfer11

/-- Read-buffer size of the transfer protocol: 4096 bytes (the legacy
src/p2p/protocol.rs declares `const CHUNK_SIZE: usize = 4096`; the spec names
the same 4 KiB read buffer for `util::CHUNK_SIZE`). -/
def CHUNK_SIZE : Nat := 4096

/-- The `TransferCommand` enum (declared in src/p2p/commands.rs, outside
src/): its shape `Accept(hash) | Deny(hash)` is fixed by the spec data model
and by the match arms of `TransferPayload::read_socket`. -/
inductive TransferCommand
  | Accept (hash : String)
  | Deny (hash : String)
deriving DecidableEq, Repr

/-- The transfer metadata record `{name, hash, size}` handled by
`Metadata::read` and carried through `TransferPayload::read_socket`. -/
structure Metadata where
  name : String
  hash : String
  size : Nat
deriving DecidableEq, Repr

/-- Modelled from the spec: the on-wire `Answer` record `{accepted: bool,
hash}` (its implementation lives in src/p2p/transfer/metadata.rs, which is
outside src/).  In src, `Answer::read` hands only the `accepted` flag to its
caller `TransferOut::write_socket`. -/
structure Answer where
  accepted : Bool
  hash : String
deriving DecidableEq, Repr

/-- Error kinds of the io::Error values produced by the transfer protocol. -/
inductive ErrKind
  | PermissionDenied
  | InvalidData
  | OtherKind
deriving DecidableEq, Repr

/-- An io::Error value: kind plus message. -/
structure IoErr where
  kind : ErrKind
  msg : String
deriving DecidableEq, Repr

/-- The streaming loop of `TransferOut::write_socket` (lines 261-290 of
src/p2p/transfer/protocol.rs).  The input list holds the sizes of the
successive non-empty payloads received from the reader-thread channel;
`clean` tells whether the final empty payload (end-of-file sentinel) follows
them (a missing sentinel is the disconnected-channel Err branch).  The two
accumulators are `counter` (total bytes written) and `current_size` (bytes
since the last notification); `ttn` is `util::time_to_notify`, kept as a
parameter.  Returned are the `done` values of the `TransferProgress` events
emitted by `util::notify_progress`, in order, and Ok/Err of the loop. -/
def write_loop (ttn : Nat → Nat → Bool) (size : Nat) (clean : Bool) :
    List Nat → Nat → Nat → List Nat × Bool
  | [], counter, _ => if clean then ([counter], true) else ([], false)
  | c :: rest, counter, current =>
    if ttn (current + c) size then
      ((counter + c) :: (write_loop ttn size clean rest (counter + c) 0).1,
       (write_loop ttn size clean rest (counter + c) 0).2)
    else
      write_loop ttn size clean rest (counter + c) (current + c)

/-- The `TransferOut::write_socket` of src/p2p/transfer/protocol.rs (lines
241-306): the metadata is written (yielding `size`), the Answer is read, and
only its `accepted` flag is consulted — the echoed hash is dropped.  When
accepted, the payload is streamed with an initial
`TransferProgress(0, size, Outgoing)`, throttled per-chunk progress, a final
progress event at end of stream and a terminal `TransferCompleted`; when not
accepted the call returns Ok having emitted nothing.  The Bool result is the
Ok/Err outcome of the call. -/
def write_socket (ttn : Nat → Nat → Bool) (size : Nat) (answer : Answer)
    (clean : Bool) (chunks : List Nat) : List PeerEvent × Bool :=
  if answer.accepted then
    ((0 :: (write_loop ttn size clean chunks 0 0).1).map
        (fun d => PeerEvent.TransferProgress d size .Outgoing)
       ++ (if (write_loop ttn size clean chunks 0 0).2 then
             [PeerEvent.TransferCompleted]
           else []),
     (write_loop ttn size clean chunks 0 0).2)
  else ([], true)

/-- The streaming loop of `TransferPayload::read_file_payload` (lines 126-187
of src/p2p/transfer/protocol.rs).  The input list holds the byte counts of
the successive successful non-empty socket reads (each at most CHUNK_SIZE);
`clean` tells whether a 0-byte read (end of stream) follows them (otherwise
the socket read errored).  Accumulators: `counter` (total bytes), `current`
(bytes since last notification), `buf` (bytes buffered for the file-writer
thread, flushed at CHUNK_SIZE*8; progress is only considered on a flush).
Returned are the `done` values of the emitted `TransferProgress` events and
Ok/Err of the loop. -/
def read_loop (ttn : Nat → Nat → Bool) (size : Nat) (clean : Bool) :
    List Nat → Nat → Nat → Nat → List Nat × Bool
  | [], counter, _, _ => if clean then ([counter], true) else ([], false)
  | n :: rest, counter, current, buf =>
    if CHUNK_SIZE * 8 ≤ buf + n then
      if ttn (current + n) size then
        ((counter + n) :: (read_loop ttn size clean rest (counter + n) 0 0).1,
         (read_loop ttn size clean rest (counter + n) 0 0).2)
      else
        read_loop ttn size clean rest (counter + n) (current + n) 0
    else
      read_loop ttn size clean rest (counter + n) (current + n) (buf + n)

/-- One step of the inbound transfer, as observed from outside: either a UI
event pushed to the sender queue, or an `Answer` record written back to the
socket by `Answer::write`. -/
inductive RsAction
  | ui (e : PeerEvent)
  | writeAnswer (accepted : Bool)
deriving DecidableEq, Repr

/-- The `TransferPayload::read_socket` of src/p2p/transfer/protocol.rs (lines
189-228): after `Metadata::read` it emits `FileIncoming` and blocks for a
`TransferCommand`; `Accept(h)` with `h == meta.hash` answers true and streams
the body (with a leading `TransferProgress(0, meta.size, Incoming)`);
`Accept(h)` with a differing hash answers false and fails with
PermissionDenied("Hash does not match"); `Deny(_)` answers false and fails
with PermissionDenied("Rejected").  The Nat in the Ok result is the byte
counter returned by `read_file_payload`. -/
def read_socket (ttn : Nat → Nat → Bool) (meta : Metadata)
    (cmd : TransferCommand) (clean : Bool) (chunks : List Nat) :
    List RsAction × Except IoErr Nat :=
  match cmd with
  | .Accept h =>
    if h = meta.hash then
      ([RsAction.ui (.FileIncoming meta.name meta.hash meta.size),
        RsAction.writeAnswer true]
         ++ (0 :: (read_loop ttn meta.size clean chunks 0 0 0).1).map
              (fun d => RsAction.ui (.TransferProgress d meta.size .Incoming)),
       if (read_loop ttn meta.size clean chunks 0 0 0).2 then
         .ok chunks.sum
       else .error ⟨.OtherKind, "socket read failed"⟩)
    else
      ([RsAction.ui (.FileIncoming meta.name meta.hash meta.size),
        RsAction.writeAnswer false],
       .error ⟨.PermissionDenied, "Hash does not match"⟩)
  | .Deny _ =>
    ([RsAction.ui (.FileIncoming meta.name meta.hash meta.size),
      RsAction.writeAnswer false],
     .error ⟨.PermissionDenied, "Rejected"⟩)

/-- The `done` fields of the `TransferProgress` events in a UI event list. -/
def progressDones : List PeerEvent → List Nat
  | [] => []
  | PeerEvent.TransferProgress d _ _ :: rest => d :: progressDones rest
  | _ :: rest => progressDones rest

/-- The UI events among the actions of an inbound transfer. -/
def uiEvents : List RsAction → List PeerEvent
  | [] => []
  | RsAction.ui e :: rest => e :: uiEvents rest
  | _ :: rest => uiEvents rest

/-- Weakening the head of a nondecreasing chain of naturals. -/
theorem chain_le_head_weaken {a b : Nat} {l : List Nat} (hab : b ≤ a)
    (h : List.Chain' (· ≤ ·) (a :: l)) : List.Chain' (· ≤ ·) (b :: l) := by
  cases l with
  | nil => simp
  | cons x xs =>
    rw [List.chain'_cons] at h ⊢
    exact ⟨le_trans hab h.1, h.2⟩

/-- Prepending to a list with a known last element keeps that last element. -/
theorem getLast?_cons_of_some {l : List Nat} {x a : Nat}
    (h : l.getLast? = some x) : (a :: l).getLast? = some x := by
  cases l with
  | nil => cases h
  | cons y ys => rwa [List.getLast?_cons_cons]

/-- Every progress value emitted by the outbound loop is bounded by the bytes
already counted plus the bytes still to stream. -/
theorem write_loop_mem_le (ttn : Nat → Nat → Bool) (size : Nat) (clean : Bool) :
    ∀ (cs : List Nat) (counter current d : Nat),
      d ∈ (Dragit.Transfer11.write_loop ttn size clean cs counter current).1 →
        d ≤ counter + cs.sum := by
  intro cs
  induction cs with
  | nil =>
    intro counter current d hd
    by_cases hc : clean <;>
      simp [Dragit.Transfer11.write_loop, hc] at hd
    simp [hd]
  | cons c rest ih =>
    intro counter current d hd
    simp only [Dragit.Transfer11.write_loop] at hd
    rw [List.sum_cons, ← Nat.add_assoc]
    split at hd
    · rcases List.mem_cons.mp hd with h1 | h2
      · subst h1; exact Nat.le_add_right _ _
      · exact ih (counter + c) 0 d h2
    · exact ih (counter + c) (current + c) d hd

/-- The progress values emitted by the outbound loop are nondecreasing, and
all at least the initial counter. -/
theorem write_loop_chain (ttn : Nat → Nat → Bool) (size : Nat) (clean : Bool) :
    ∀ (cs : List Nat) (counter current : Nat),
      List.Chain' (· ≤ ·)
        (counter :: (Dragit.Transfer11.write_loop ttn size clean cs counter current).1) := by
  intro cs
  induction cs with
  | nil =>
    intro counter current
    by_cases hc : clean <;> simp [Dragit.Transfer11.write_loop, hc]
  | cons c rest ih =>
    intro counter current
    simp only [Dragit.Transfer11.write_loop]
    split
    · rw [List.chain'_cons]
      exact ⟨Nat.le_add_right _ _, ih (counter + c) 0⟩
    · exact chain_le_head_weaken (Nat.le_add_right _ _)
        (ih (counter + c) (current + c))

/-- When the end-of-file sentinel arrives, the outbound loop ends in the Ok
branch and its final progress value counts every streamed byte. -/
theorem write_loop_clean (ttn : Nat → Nat → Bool) (size : Nat) :
    ∀ (cs : List Nat) (counter current : Nat),
      (Dragit.Transfer11.write_loop ttn size true cs counter current).1.getLast?
          = some (counter + cs.sum)
      ∧ (Dragit.Transfer11.write_loop ttn size true cs counter current).2 = true := by
  intro cs
  induction cs with
  | nil =>
    intro counter current
    simp [Dragit.Transfer11.write_loop]
  | cons c rest ih =>
    intro counter current
    simp only [Dragit.Transfer11.write_loop]
    rw [List.sum_cons, ← Nat.add_assoc]
    split
    · exact ⟨getLast?_cons_of_some (ih (counter + c) 0).1, (ih (counter + c) 0).2⟩
    · exact ih (counter + c) (current + c)

/-- Every progress value emitted by the inbound loop is bounded by the bytes
already counted plus the bytes still to read. -/
theorem read_loop_mem_le (ttn : Nat → Nat → Bool) (size : Nat) (clean : Bool) :
    ∀ (cs : List Nat) (counter current buf d : Nat),
      d ∈ (Dragit.Transfer11.read_loop ttn size clean cs counter current buf).1 →
        d ≤ counter + cs.sum := by
  intro cs
  induction cs with
  | nil =>
    intro counter current buf d hd
    by_cases hc : clean <;>
      simp [Dragit.Transfer11.read_loop, hc] at hd
    simp [hd]
  | cons c rest ih =>
    intro counter current buf d hd
    simp only [Dragit.Transfer11.read_loop] at hd
    rw [List.sum_cons, ← Nat.add_assoc]
    split at hd
    · split at hd
      · rcases List.mem_cons.mp hd with h1 | h2
        · subst h1; exact Nat.le_add_right _ _
        · exact ih (counter + c) 0 0 d h2
      · exact ih (counter + c) (current + c) 0 d hd
    · exact ih (counter + c) (current + c) (buf + c) d hd

/-- The progress values emitted by the inbound loop are nondecreasing, and
all at least the initial counter. -/
theorem read_loop_chain (ttn : Nat → Nat → Bool) (size : Nat) (clean : Bool) :
    ∀ (cs : List Nat) (counter current buf : Nat),
      List.Chain' (· ≤ ·)
        (counter :: (Dragit.Transfer11.read_loop ttn size clean cs counter current buf).1) := by
  intro cs
  induction cs with
  | nil =>
    intro counter current buf
    by_cases hc : clean <;> simp [Dragit.Transfer11.read_loop, hc]
  | cons c rest ih =>
    intro counter current buf
    simp only [Dragit.Transfer11.read_loop]
    split
    · split
      · rw [List.chain'_cons]
        exact ⟨Nat.le_add_right _ _, ih (counter + c) 0 0⟩
      · exact chain_le_head_weaken (Nat.le_add_right _ _)
          (ih (counter + c) (current + c) 0)
    · exact chain_le_head_weaken (Nat.le_add_right _ _)
        (ih (counter + c) (current + c) (buf + c))

/-- When the end of stream is reached, the inbound loop ends in the Ok branch
and its final progress value counts every received byte. -/
theorem read_loop_clean (ttn : Nat → Nat → Bool) (size : Nat) :
    ∀ (cs : List Nat) (counter current buf : Nat),
      (Dragit.Transfer11.read_loop ttn size true cs counter current buf).1.getLast?
          = some (counter + cs.sum)
      ∧ (Dragit.Transfer11.read_loop ttn size true cs counter current buf).2 = true := by
  intro cs
  induction cs with
  | nil =>
    intro counter current buf
    simp [Dragit.Transfer11.read_loop]
  | cons c rest ih =>
    intro counter current buf
    simp only [Dragit.Transfer11.read_loop]
    rw [List.sum_cons, ← Nat.add_assoc]
    split
    · split
      · exact ⟨getLast?_cons_of_some (ih (counter + c) 0 0).1,
               (ih (counter + c) 0 0).2⟩
      · exact ih (counter + c) (current + c) 0
    · exact ih (counter + c) (current + c) (buf + c)

/-- progressDones distributes over append. -/
theorem progressDones_append (l1 l2 : List PeerEvent) :
    progressDones (l1 ++ l2) = progressDones l1 ++ progressDones l2 := by
  induction l1 with
  | nil => rfl
  | cons e rest ih => cases e <;> simp [progressDones, ih]

/-- progressDones recovers the done values of a mapped progress-event list. -/
theorem progressDones_map (ds : List Nat) (size : Nat) (dir : Direction) :
    progressDones (ds.map (fun d => PeerEvent.TransferProgress d size dir)) = ds := by
  induction ds with
  | nil => rfl
  | cons d rest ih => simp [progressDones, ih]

/-- uiEvents recovers the events of a mapped ui-action list. -/
theorem uiEvents_map (ds : List Nat) (f : Nat → PeerEvent) :
    uiEvents (ds.map (fun d => RsAction.ui (f d))) = ds.map f := by
  induction ds with
  | nil => rfl
  | cons d rest ih => simp [uiEvents, ih]

end Transfer11

/-! ## Hash verification of a received file (src/p2p/mod.rs and
src/p2p/transfer/protocol.rs) -/

namespace P2pMod

/-- The UI events sent by the `TransferPayload` handler of src/p2p/mod.rs:
`PeerEvent::FileCorrect(event.name)` on a matching hash (mod.rs passes only
the name) and `PeerEvent::FileIncorrect` otherwise. -/
inductive VerifyEvent
  | fileCorrect (name : String)
  | fileIncorrect
deriving DecidableEq, Repr

/-- An externally visible action of the handler: a UI event pushed to the
sender queue, or a file deletion.  The deletion constructor exists so that
its absence from the handler trace is expressible. -/
inductive FsAction
  | sendEvent (e : VerifyEvent)
  | deleteFile (path : String)
deriving DecidableEq, Repr

/-- The received-transfer fields that verification reads: its name, its
on-disk path and the hash announced in the metadata. -/
structure ReceivedTransfer where
  name : String
  path : String
  hash : String
deriving DecidableEq, Repr

/-- The `TransferPayload::check_file` of src/p2p/transfer/protocol.rs (lines
87-95): recompute the hash of the file on disk (`hash_contents`, SHA-1 over
the full contents) and compare with the stored hash.  `hashFn` abstracts
SHA-1 and `disk` maps a path to the byte contents on disk. -/
def check_file (hashFn : List Nat → String) (disk : String → List Nat)
    (tp : ReceivedTransfer) : Except Transfer11.IoErr Unit :=
  if hashFn (disk tp.path) ≠ tp.hash then
    .error ⟨.InvalidData, "File corrupted!"⟩
  else .ok ()

/-- The `NetworkBehaviourEventProcess<TransferPayload>::inject_event` of
src/p2p/mod.rs (lines 72-93): on Ok it sends `FileCorrect(name)`, on Err it
sends `FileIncorrect`; those sends are its only actions — in particular it
performs no file deletion. -/
def inject_event (hashFn : List Nat → String) (disk : String → List Nat)
    (tp : ReceivedTransfer) : List FsAction :=
  match check_file hashFn disk tp with
  | .ok _ => [.sendEvent (.fileCorrect tp.name)]
  | .error _ => [.sendEvent .fileIncorrect]

end P2pMod

/-! ## Legacy metadata reader (src/p2p/protocol.rs, /transfer/1.0) -/

namespace Protocol10

/-- Rust `str::trim`: leading and trailing whitespace removed (modelled over
the ASCII whitespace characters). -/
def rust_trim (s : String) : String :=
  String.mk
    (((s.data.dropWhile Char.isWhitespace).reverse.dropWhile
        Char.isWhitespace).reverse)

/-- Rust `str::parse::<usize>`: an optional leading plus sign followed by at
least one ASCII digit, the value fitting in 64 bits; anything else is Err. -/
def parse_usize (s : String) : Option Nat :=
  let cs := match s.data with
    | c :: rest => if c = '+' then rest else c :: rest
    | [] => []
  if !cs.isEmpty && cs.all Char.isDigit then
    let n := cs.foldl (fun a c => a * 10 + (c.toNat - 48)) 0
    if n < 2 ^ 64 then some n else none
  else none

/-- Result of the metadata phase of the legacy reader: the parsed header, or
a panic from the `.unwrap()` on the size parse. -/
inductive MetaReadResult
  | panicked
  | okMeta (name hash : String) (size : Nat)
deriving DecidableEq, Repr

/-- The metadata phase of `TransferPayload::read_socket` in
src/p2p/protocol.rs (lines 101-112): three newline-terminated lines are
read, trimmed, and the size line goes through `parse::<usize>().unwrap()` —
a malformed or overflowing size line panics instead of returning an error,
and no upper bound at all is imposed on a parseable size. -/
def read_meta (name hash size_b : String) : MetaReadResult :=
  match parse_usize (rust_trim size_b) with
  | some n => .okMeta (rust_trim name) (rust_trim hash) n
  | none => .panicked

end Protocol10

end Dragit

/-- C1: in `TransferPayload::read_socket`, after the metadata is read the
`FileIncoming` event is emitted and the transfer blocks on a
`TransferCommand`.  An `Accept` carrying exactly `meta.hash` answers
`Answer(true)` and proceeds to stream the body (Ok when the stream ends
cleanly); an `Accept` carrying any other hash answers `Answer(false)` and
fails with PermissionDenied("Hash does not match") without reading any
payload byte; a `Deny` answers `Answer(false)` and fails with
PermissionDenied("Rejected") without reading any payload byte. -/
theorem Dragit.Transfer11.read_socket_command_gate
    (ttn : Nat → Nat → Bool) (meta : Dragit.Transfer11.Metadata) (h : String)
    (clean : Bool) (chunks : List Nat) (hneq : h ≠ meta.hash) :
    ((Dragit.Transfer11.read_socket ttn meta (.Accept meta.hash) clean chunks).1
        = [Dragit.Transfer11.RsAction.ui
             (.FileIncoming meta.name meta.hash meta.size),
           Dragit.Transfer11.RsAction.writeAnswer true]
          ++ (0 :: (Dragit.Transfer11.read_loop ttn meta.size clean chunks 0 0 0).1).map
               (fun d => Dragit.Transfer11.RsAction.ui
                  (.TransferProgress d meta.size .Incoming))
      ∧ (clean = true →
          (Dragit.Transfer11.read_socket ttn meta (.Accept meta.hash) clean chunks).2
            = .ok chunks.sum))
    ∧ (Dragit.Transfer11.read_socket ttn meta (.Accept h) clean chunks
        = ([Dragit.Transfer11.RsAction.ui
              (.FileIncoming meta.name meta.hash meta.size),
            Dragit.Transfer11.RsAction.writeAnswer false],
           .error ⟨.PermissionDenied, "Hash does not match"⟩))
    ∧ (Dragit.Transfer11.read_socket ttn meta (.Deny h) clean chunks
        = ([Dragit.Transfer11.RsAction.ui
              (.FileIncoming meta.name meta.hash meta.size),
            Dragit.Transfer11.RsAction.writeAnswer false],
           .error ⟨.PermissionDenied, "Rejected"⟩)) := by
  refine ⟨⟨?_, ?_⟩, ?_, ?_⟩
  · simp [Dragit.Transfer11.read_socket]
  · intro hcl
    subst hcl
    simp [Dragit.Transfer11.read_socket,
      (Dragit.Transfer11.read_loop_clean ttn meta.size chunks 0 0 0).2]
  · simp [Dragit.Transfer11.read_socket, hneq]
  · simp [Dragit.Transfer11.read_socket]

/-- Witness for C1 at a concrete mismatching hash. -/
theorem Dragit.Transfer11.read_socket_command_gate_witness :
    ("cd" ≠ "ab")
    ∧ (Dragit.Transfer11.read_socket (fun _ _ => false)
          ⟨"hello.txt", "ab", 3⟩ (.Accept "cd") true [3]
        = ([Dragit.Transfer11.RsAction.ui (.FileIncoming "hello.txt" "ab" 3),
            Dragit.Transfer11.RsAction.writeAnswer false],
           .error ⟨.PermissionDenied, "Hash does not match"⟩)) := by
  refine ⟨by decide, ?_⟩
  exact (Dragit.Transfer11.read_socket_command_gate (fun _ _ => false)
    ⟨"hello.txt", "ab", 3⟩ "cd" true [3] (by decide)).2.1

/-- C4 (code divergence): `TransferOut::write_socket` never validates the
hash echoed in the Answer: its entire behaviour is invariant under the echoed
hash, and at a concrete accepted Answer whose echoed hash differs from the
sent one it streams the payload and reports TransferCompleted instead of
failing. -/
theorem Dragit.Transfer11.write_socket_ignores_answer_hash :
    (∀ (ttn : Nat → Nat → Bool) (size : Nat) (a : Bool) (h1 h2 : String)
        (clean : Bool) (chunks : List Nat),
        Dragit.Transfer11.write_socket ttn size ⟨a, h1⟩ clean chunks
          = Dragit.Transfer11.write_socket ttn size ⟨a, h2⟩ clean chunks)
    ∧ Dragit.Transfer11.write_socket (fun _ _ => false) 3 ⟨true, "beef"⟩ true [3]
        = ([Dragit.PeerEvent.TransferProgress 0 3 .Outgoing,
            Dragit.PeerEvent.TransferProgress 3 3 .Outgoing,
            Dragit.PeerEvent.TransferCompleted], true) := by
  exact ⟨fun _ _ _ _ _ _ _ => rfl, rfl⟩

/-- C5 (counterexample): a rejected outbound transfer emits no UI event at
all — neither a WaitingForAnswer before the Answer nor a TransferRejected
after it (the src `PeerEvent` type has no such variants). -/
theorem Dragit.Transfer11.write_socket_rejected_silent :
    Dragit.Transfer11.write_socket (fun _ _ => false) 3 ⟨false, "ab"⟩ true [3]
      = ([], true) := by
  rfl

/-- C5 (amended): for every outbound transfer, an accepted=false Answer
produces no UI event, and an accepted=true Answer whose stream completes
produces a nonempty run of `TransferProgress(_, size, Outgoing)` events
starting at done=0 followed by exactly one final `TransferCompleted`. -/
theorem Dragit.Transfer11.outbound_event_order
    (ttn : Nat → Nat → Bool) (size : Nat) (hh : String) (clean : Bool)
    (chunks : List Nat)
    (hok : (Dragit.Transfer11.write_socket ttn size ⟨true, hh⟩ clean chunks).2 = true) :
    ((Dragit.Transfer11.write_socket ttn size ⟨false, hh⟩ clean chunks).1 = [])
    ∧ ∃ ds : List Nat,
        (Dragit.Transfer11.write_socket ttn size ⟨true, hh⟩ clean chunks).1
          = ds.map (fun d => Dragit.PeerEvent.TransferProgress d size .Outgoing)
            ++ [Dragit.PeerEvent.TransferCompleted]
        ∧ ds.head? = some 0 := by
  refine ⟨rfl, ⟨0 :: (Dragit.Transfer11.write_loop ttn size clean chunks 0 0).1, ?_, rfl⟩⟩
  have hb : (Dragit.Transfer11.write_loop ttn size clean chunks 0 0).2 = true := by
    simpa [Dragit.Transfer11.write_socket] using hok
  simp [Dragit.Transfer11.write_socket, hb]

/-- Witness for the amended C5 theorem at a concrete accepted transfer. -/
theorem Dragit.Transfer11.outbound_event_order_witness :
    ((Dragit.Transfer11.write_socket (fun _ _ => false) 3 ⟨true, "ab"⟩ true [3]).2 = true)
    ∧ ((Dragit.Transfer11.write_socket (fun _ _ => false) 3 ⟨false, "ab"⟩ true [3]).1 = [])
    ∧ ∃ ds : List Nat,
        (Dragit.Transfer11.write_socket (fun _ _ => false) 3 ⟨true, "ab"⟩ true [3]).1
          = ds.map (fun d => Dragit.PeerEvent.TransferProgress d 3 .Outgoing)
            ++ [Dragit.PeerEvent.TransferCompleted]
        ∧ ds.head? = some 0 := by
  refine ⟨rfl, ?_⟩
  exact Dragit.Transfer11.outbound_event_order (fun _ _ => false) 3 "ab" true [3] rfl

/-- C6: within one transfer direction the `done` fields of successive
`TransferProgress` events are nondecreasing and bounded by the total, and in
a cleanly completed transfer streaming exactly `total` bytes the last
progress value equals the total — for outbound followed by the terminal
`TransferCompleted`, and for inbound before the hash verdict. -/
theorem Dragit.Transfer11.transfer_progress_monotone
    (ttn : Nat → Nat → Bool) (size : Nat) (hh : String)
    (meta : Dragit.Transfer11.Metadata) (chunksO chunksI : List Nat)
    (hO : chunksO.sum = size) (hI : chunksI.sum = meta.size) :
    (List.Chain' (· ≤ ·)
        (Dragit.Transfer11.progressDones
          (Dragit.Transfer11.write_socket ttn size ⟨true, hh⟩ true chunksO).1)
      ∧ (∀ d ∈ Dragit.Transfer11.progressDones
            (Dragit.Transfer11.write_socket ttn size ⟨true, hh⟩ true chunksO).1,
          d ≤ size)
      ∧ (Dragit.Transfer11.progressDones
            (Dragit.Transfer11.write_socket ttn size ⟨true, hh⟩ true chunksO).1).getLast?
          = some size
      ∧ ((Dragit.Transfer11.write_socket ttn size ⟨true, hh⟩ true chunksO).1).getLast?
          = some Dragit.PeerEvent.TransferCompleted)
    ∧ (List.Chain' (· ≤ ·)
        (Dragit.Transfer11.progressDones
          (Dragit.Transfer11.uiEvents
            (Dragit.Transfer11.read_socket ttn meta (.Accept meta.hash) true chunksI).1))
      ∧ (∀ d ∈ Dragit.Transfer11.progressDones
            (Dragit.Transfer11.uiEvents
              (Dragit.Transfer11.read_socket ttn meta (.Accept meta.hash) true chunksI).1),
          d ≤ meta.size)
      ∧ (Dragit.Transfer11.progressDones
            (Dragit.Transfer11.uiEvents
              (Dragit.Transfer11.read_socket ttn meta (.Accept meta.hash) true chunksI).1)).getLast?
          = some meta.size) := by
  have hwb := Dragit.Transfer11.write_loop_clean ttn size chunksO 0 0
  have hrb := Dragit.Transfer11.read_loop_clean ttn meta.size chunksI 0 0 0
  have hevO : (Dragit.Transfer11.write_socket ttn size ⟨true, hh⟩ true chunksO).1
      = (0 :: (Dragit.Transfer11.write_loop ttn size true chunksO 0 0).1).map
          (fun d => Dragit.PeerEvent.TransferProgress d size .Outgoing)
        ++ [Dragit.PeerEvent.TransferCompleted] := by
    simp [Dragit.Transfer11.write_socket, hwb.2]
  have hdonesO : Dragit.Transfer11.progressDones
      (Dragit.Transfer11.write_socket ttn size ⟨true, hh⟩ true chunksO).1
      = 0 :: (Dragit.Transfer11.write_loop ttn size true chunksO 0 0).1 := by
    rw [hevO, Dragit.Transfer11.progressDones_append,
      Dragit.Transfer11.progressDones_map]
    simp [Dragit.Transfer11.progressDones]
  have hevI : Dragit.Transfer11.uiEvents
      (Dragit.Transfer11.read_socket ttn meta (.Accept meta.hash) true chunksI).1
      = Dragit.PeerEvent.FileIncoming meta.name meta.hash meta.size
        :: (0 :: (Dragit.Transfer11.read_loop ttn meta.size true chunksI 0 0 0).1).map
             (fun d => Dragit.PeerEvent.TransferProgress d meta.size .Incoming) := by
    simp only [Dragit.Transfer11.read_socket, if_pos rfl]
    rw [List.cons_append, List.cons_append, List.nil_append]
    simp only [Dragit.Transfer11.uiEvents]
    rw [Dragit.Transfer11.uiEvents_map]
    rfl
  have hdonesI : Dragit.Transfer11.progressDones
      (Dragit.Transfer11.uiEvents
        (Dragit.Transfer11.read_socket ttn meta (.Accept meta.hash) true chunksI).1)
      = 0 :: (Dragit.Transfer11.read_loop ttn meta.size true chunksI 0 0 0).1 := by
    rw [hevI]
    simp only [Dragit.Transfer11.progressDones]
    rw [Dragit.Transfer11.progressDones_map]
  refine ⟨⟨?_, ?_, ?_, ?_⟩, ?_, ?_, ?_⟩
  · rw [hdonesO]
    exact Dragit.Transfer11.write_loop_chain ttn size true chunksO 0 0
  · intro d hd
    rw [hdonesO] at hd
    rcases List.mem_cons.mp hd with h1 | h2
    · simp [h1]
    · have := Dragit.Transfer11.write_loop_mem_le ttn size true chunksO 0 0 d h2
      simpa [hO] using this
  · rw [hdonesO]
    refine getLast?_cons_of_some ?_
    simpa [hO] using hwb.1
  · rw [hevO]
    exact List.getLast?_concat _
  · rw [hdonesI]
    exact Dragit.Transfer11.read_loop_chain ttn meta.size true chunksI 0 0 0
  · intro d hd
    rw [hdonesI] at hd
    rcases List.mem_cons.mp hd with h1 | h2
    · simp [h1]
    · have := Dragit.Transfer11.read_loop_mem_le ttn meta.size true chunksI 0 0 0 d h2
      simpa [hI] using this
  · rw [hdonesI]
    refine getLast?_cons_of_some ?_
    simpa [hI] using hrb.1

/-- Witness for C6 at a concrete completed transfer of 3 bytes. -/
theorem Dragit.Transfer11.transfer_progress_monotone_witness :
    (([3] : List Nat).sum = 3)
    ∧ ((List.Chain' (· ≤ ·)
        (Dragit.Transfer11.progressDones
          (Dragit.Transfer11.write_socket (fun _ _ => false) 3 ⟨true, "ab"⟩ true [3]).1)
      ∧ (∀ d ∈ Dragit.Transfer11.progressDones
            (Dragit.Transfer11.write_socket (fun _ _ => false) 3 ⟨true, "ab"⟩ true [3]).1,
          d ≤ 3)
      ∧ (Dragit.Transfer11.progressDones
            (Dragit.Transfer11.write_socket (fun _ _ => false) 3 ⟨true, "ab"⟩ true [3]).1).getLast?
          = some 3
      ∧ ((Dragit.Transfer11.write_socket (fun _ _ => false) 3 ⟨true, "ab"⟩ true [3]).1).getLast?
          = some Dragit.PeerEvent.TransferCompleted)
    ∧ (List.Chain' (· ≤ ·)
        (Dragit.Transfer11.progressDones
          (Dragit.Transfer11.uiEvents
            (Dragit.Transfer11.read_socket (fun _ _ => false)
              ⟨"hello.txt", "ab", 3⟩ (.Accept "ab") true [3]).1))
      ∧ (∀ d ∈ Dragit.Transfer11.progressDones
            (Dragit.Transfer11.uiEvents
              (Dragit.Transfer11.read_socket (fun _ _ => false)
                ⟨"hello.txt", "ab", 3⟩ (.Accept "ab") true [3]).1),
          d ≤ 3)
      ∧ (Dragit.Transfer11.progressDones
            (Dragit.Transfer11.uiEvents
              (Dragit.Transfer11.read_socket (fun _ _ => false)
                ⟨"hello.txt", "ab", 3⟩ (.Accept "ab") true [3]).1)).getLast?
          = some 3)) := by
  refine ⟨rfl, ?_⟩
  exact Dragit.Transfer11.transfer_progress_monotone (fun _ _ => false) 3 "ab"
    ⟨"hello.txt", "ab", 3⟩ [3] [3] rfl rfl

/-- C2 (counterexample): at a concrete received file whose recomputed hash
("aa") differs from the announced hash ("bb"), the verification handler of
src/p2p/mod.rs emits only `FileIncorrect`; it does NOT delete the partially
received file — no deleteFile action appears in its action list. -/
theorem Dragit.P2pMod.inject_event_no_delete :
    Dragit.P2pMod.inject_event (fun _ => "aa") (fun _ => [1, 2, 3])
        ⟨"hello.txt", "/downloads/1_hello.txt", "bb"⟩
      = [Dragit.P2pMod.FsAction.sendEvent .fileIncorrect]
    ∧ Dragit.P2pMod.FsAction.deleteFile "/downloads/1_hello.txt"
        ∉ Dragit.P2pMod.inject_event (fun _ => "aa") (fun _ => [1, 2, 3])
            ⟨"hello.txt", "/downloads/1_hello.txt", "bb"⟩ := by
  refine ⟨rfl, ?_⟩
  intro hmem
  simp [Dragit.P2pMod.inject_event, Dragit.P2pMod.check_file] at hmem

/-- C2 (amended): after streaming finishes the receiver recomputes the hash
over the file written to disk; if it equals the announced hash the handler
emits `FileCorrect` and otherwise `FileIncorrect` — and in both cases this
send is its ONLY action: the partially received file is never deleted. -/
theorem Dragit.P2pMod.inject_event_verdict
    (hashFn : List Nat → String) (disk : String → List Nat)
    (tp : Dragit.P2pMod.ReceivedTransfer) :
    Dragit.P2pMod.inject_event hashFn disk tp
      = [Dragit.P2pMod.FsAction.sendEvent
          (if hashFn (disk tp.path) = tp.hash then .fileCorrect tp.name
           else .fileIncorrect)]
    ∧ ∀ p, Dragit.P2pMod.FsAction.deleteFile p
        ∉ Dragit.P2pMod.inject_event hashFn disk tp := by
  constructor
  · by_cases hk : hashFn (disk tp.path) = tp.hash <;>
      simp [Dragit.P2pMod.inject_event, Dragit.P2pMod.check_file, hk]
  · intro p hmem
    by_cases hk : hashFn (disk tp.path) = tp.hash <;>
      simp [Dragit.P2pMod.inject_event, Dragit.P2pMod.check_file, hk] at hmem

/-- C8 (code evaluation): the legacy metadata reader panics (unwrap) on the
malformed size line "abc" instead of returning an error, and accepts a
parseable size of 32 GiB — twice the 16 GiB maximum the claim requires —
without any ResourceExhausted rejection. -/
theorem Dragit.Protocol10.read_meta_unchecked :
    Dragit.Protocol10.read_meta "hello.txt\n" "ab\n" "abc\n"
      = Dragit.Protocol10.MetaReadResult.panicked
    ∧ Dragit.Protocol10.read_meta "hello.txt\n" "ab\n" "34359738368\n"
      = Dragit.Protocol10.MetaReadResult.okMeta "hello.txt" "ab" 34359738368
    ∧ 16 * 1024 * 1024 * 1024 < (34359738368 : Nat) := by
  refine ⟨by decide, by decide, by norm_num⟩

/-- C3 (code divergence): with connected peer A only and a single queued
payload whose target peer is B (B different from A, B known and connected or
not), `TransferBehaviour::poll` dispatches the payload to A, the first
connected peer, ignoring the target field: the claim that a payload is sent
only to `target_peer_id` fails on this code. -/
theorem Dragit.Behaviour.poll_ignores_target_peer :
    (Dragit.Behaviour.TransferBehaviour.poll
        ⟨[⟨0⟩, ⟨1⟩], [⟨0⟩], [],
         [⟨"a.txt", "/tmp/a.txt", ⟨1⟩⟩]⟩).1
      = Dragit.Behaviour.PollAction.NotifyHandler ⟨0⟩ ⟨"a.txt", "/tmp/a.txt"⟩
    ∧ (⟨0⟩ : Dragit.PeerId) ≠ ⟨1⟩ := by
  constructor
  · rfl
  · decide

/-- C7 (counterexample): with one connected peer, queue `first.txt` and then
`second.txt` for that same peer; the next `poll` dispatches `second.txt`,
because `Vec::pop` removes from the back of the queue.  The payload queued
first does NOT begin its outbound transfer first. -/
theorem Dragit.Behaviour.poll_dispatch_not_fifo :
    ((((Dragit.Behaviour.TransferBehaviour.push_file
          ⟨[⟨0⟩], [⟨0⟩], [], []⟩
          ⟨"first.txt", "/tmp/first.txt", ⟨0⟩⟩).push_file
          ⟨"second.txt", "/tmp/second.txt", ⟨0⟩⟩).poll).1
      = Dragit.Behaviour.PollAction.NotifyHandler ⟨0⟩
          ⟨"second.txt", "/tmp/second.txt"⟩) := by
  rfl

/-- C7 (amended): payload dispatch is LIFO.  Whenever the inbound event queue
is empty, some peer is connected and the payload queue is non-empty, `poll`
dispatches the MOST RECENTLY queued payload (the last element of the queue) to
the first connected peer, and leaves the rest of the queue untouched. -/
theorem Dragit.Behaviour.poll_dispatch_lifo (b : Dragit.Behaviour.TransferBehaviour)
    (peer : Dragit.PeerId) (f : Dragit.Behaviour.FileToSend)
    (he : b.events = []) (hc : b.connected_peers.head? = some peer)
    (hp : b.payloads.getLast? = some f) :
    (b.poll).1 = Dragit.Behaviour.PollAction.NotifyHandler peer ⟨f.name, f.path⟩
    ∧ (b.poll).2.payloads = b.payloads.dropLast := by
  have hev : b.events.getLast? = none := by rw [he]; rfl
  obtain ⟨rest, hcc⟩ : ∃ rest, b.connected_peers = peer :: rest := by
    cases hl : b.connected_peers with
    | nil => rw [hl] at hc; cases hc
    | cons a t =>
      rw [hl] at hc
      simp only [List.head?] at hc
      exact ⟨t, by rw [Option.some_inj] at hc; rw [hc]⟩
  unfold Dragit.Behaviour.TransferBehaviour.poll
  rw [hev, hcc, hp]
  exact ⟨rfl, rfl⟩

/-- Witness for the amended C7 theorem at a concrete state. -/
theorem Dragit.Behaviour.poll_dispatch_lifo_witness :
    (Dragit.Behaviour.TransferBehaviour.poll
        ⟨[⟨0⟩], [⟨0⟩], [],
         [⟨"first.txt", "/tmp/first.txt", ⟨0⟩⟩,
          ⟨"second.txt", "/tmp/second.txt", ⟨0⟩⟩]⟩).1
      = Dragit.Behaviour.PollAction.NotifyHandler ⟨0⟩
          ⟨"second.txt", "/tmp/second.txt"⟩
    ∧ (Dragit.Behaviour.TransferBehaviour.poll
        ⟨[⟨0⟩], [⟨0⟩], [],
         [⟨"first.txt", "/tmp/first.txt", ⟨0⟩⟩,
          ⟨"second.txt", "/tmp/second.txt", ⟨0⟩⟩]⟩).2.payloads
      = [⟨"first.txt", "/tmp/first.txt", ⟨0⟩⟩] := by
  have h := Dragit.Behaviour.poll_dispatch_lifo
    ⟨[⟨0⟩], [⟨0⟩], [],
     [⟨"first.txt", "/tmp/first.txt", ⟨0⟩⟩,
      ⟨"second.txt", "/tmp/second.txt", ⟨0⟩⟩]⟩
    ⟨0⟩ ⟨"second.txt", "/tmp/second.txt", ⟨0⟩⟩
    rfl rfl rfl
  exact ⟨h.1, by rw [h.2]; rfl⟩

/-- C9: completing the discovery capability exchange (`update_peer`) rewrites
only the `hostname` and `os` fields of the addressed record: for every key the
`peer_id`, `address` and `name` fields read back unchanged, and the addressed
entry reads back with exactly its `hostname` and `os` replaced. -/
theorem Dragit.Discovery.update_peer_frame (peers : PeerTable) (pid pid' : PeerId)
    (h : String) (o : OperatingSystem) :
    ((lookupPeer (update_peer peers pid h o) pid').map Peer.peer_id
        = (lookupPeer peers pid').map Peer.peer_id)
    ∧ ((lookupPeer (update_peer peers pid h o) pid').map Peer.address
        = (lookupPeer peers pid').map Peer.address)
    ∧ ((lookupPeer (update_peer peers pid h o) pid').map Peer.name
        = (lookupPeer peers pid').map Peer.name)
    ∧ lookupPeer (update_peer peers pid h o) pid
        = (lookupPeer peers pid).map
            (fun p => { p with hostname := h, os := o }) := by
  have hfind := update_peer_find peers pid h o
  have hfind2 := update_peer_find_self peers pid h o
  refine ⟨?_, ?_, ?_, ?_⟩
  · simp only [lookupPeer, hfind pid']
    cases hc : peers.find? (fun kv => kv.1 == pid') with
    | none => rfl
    | some kv => by_cases hkv : kv.1 = pid <;> simp [hkv]
  · simp only [lookupPeer, hfind pid']
    cases hc : peers.find? (fun kv => kv.1 == pid') with
    | none => rfl
    | some kv => by_cases hkv : kv.1 = pid <;> simp [hkv]
  · simp only [lookupPeer, hfind pid']
    cases hc : peers.find? (fun kv => kv.1 == pid') with
    | none => rfl
    | some kv => by_cases hkv : kv.1 = pid <;> simp [hkv]
  · simp only [lookupPeer, hfind2]
    cases hc : peers.find? (fun kv => kv.1 == pid) with
    | none => rfl
    | some kv => simp

/-- C10: the `PartialEq` implementation for `Peer` compares two records equal
exactly when their `peer_id` fields are equal; the `name`, `address`,
`hostname` and `os` fields play no part. -/
theorem Dragit.Peer.eq_iff_peer_id (p q : Dragit.Peer) :
    Dragit.Peer.eq p q = true ↔ p.peer_id = q.peer_id := by
  simp [Dragit.Peer.eq]
